import Mathlib

/-!
# update_nginx_whitelist: a verification development of `main.go`

The program fetches three address lists over HTTP, renders an NGINX
allow-list, writes it to a file, reloads NGINX, and repeats once a day at a
configured hour.

Modelling conventions.

* A Go `string` is a finite sequence of bytes: `GoString = List UInt8`.
  String constants of the program are the UTF-8 encodings of the same
  literals (`lit`).
* The outside world (HTTP, the JSON decoder, the file system, the `nginx`
  command, the clock) is an explicit input: an `Env` gives the result of each
  call, and every call the program makes is recorded as an `Event`.
* A Go function returning `(T, error)` with a `nil` value on failure returns
  `Except Error T`; `writeConfig`, whose failure value `0` matters, returns
  the pair.
* Go's `int` is modelled by `Nat`/`Int`; no quantity of the program comes
  near the 64-bit range except `Time.Sub`, whose saturation is modelled.
* Each pass of the loop of `main` reads the clock twice, for `now` and inside
  `time.Until`; both readings are inputs. A location is given by its zone
  lookup, so zones with transitions are locations like zones with a fixed
  offset.
-/

namespace NginxWhitelist

/-! ## Go strings -/

/-- A Go string: a sequence of bytes. -/
abbrev GoString := List UInt8

/-- The bytes of a string constant of the source (UTF-8, as Go stores it). -/
def lit (s : String) : GoString := s.data.flatMap String.utf8EncodeChar

/-- The newline byte, the only byte of the separator `"\n"`. -/
def nl : UInt8 := 10

/-- Go function `strings.Count(s, sep)` for a one-byte separator (`bytealg.CountString`):
the number of occurrences of the byte. -/
def Count (s : GoString) (sep : UInt8) : Nat :=
  match s with
  | [] => 0
  | c :: cs => if c = sep then Count cs sep + 1 else Count cs sep

/-- Go function `strings.IndexByte(s, c)`: the index of the first occurrence of `c`, or
`none` (Go's `-1`). -/
def IndexByte (s : GoString) (c : UInt8) : Option Nat :=
  match s with
  | [] => none
  | b :: bs => if b = c then some 0 else (IndexByte bs c).map (· + 1)

/-- The loop of `strings.genSplit(s, sep, 0, n)` for a one-byte separator:
at most `k` times, cut `s` at the next separator (`a[i] = s[:m]`,
`s = s[m+len(sep):]`); the rest of `s` is the last element. -/
def genSplitLoop (sep : UInt8) : Nat → GoString → List GoString
  | 0, s => [s]
  | k + 1, s =>
    match IndexByte s sep with
    | none => [s]
    | some m => s.take m :: genSplitLoop sep k (s.drop (m + 1))

/-- Go function `strings.Split(s, sep)` for a one-byte separator: `genSplit` with
`n = Count(s, sep) + 1`, whose loop runs while `i < n - 1`. -/
def Split (s : GoString) (sep : UInt8) : List GoString :=
  genSplitLoop sep (Count s sep) s

/-- Go function `strings.Join(elems, sep)` for a one-byte separator. -/
def Join (elems : List GoString) (sep : UInt8) : GoString :=
  match elems with
  | [] => []
  | [a] => a
  | a :: b :: rest => a ++ sep :: Join (b :: rest) sep

/-! ## The outside world -/

/-- A Go `error` value, by its message. -/
abbrev Error := String

/-- The decoded JSON record of provider A (`type GcoreResponse struct`). -/
structure GcoreResponse where
  Addresses : List GoString
  AddressesV6 : List GoString
deriving DecidableEq, Repr

/-- An HTTP response: what `ioutil.ReadAll(resp.Body)` gives. -/
structure Response where
  readAll : Except Error GoString

/-- One call of the program to the outside world. -/
inductive Event where
  | httpGet (url : String)
  | bodyClose (url : String)
  | writeFile (path : String) (content : GoString) (perm : Nat)
  | exec (cmd : String) (args : List String)
  | print (msg : String)
  | usage
  | sleep (d : Int)
deriving DecidableEq, Repr

/-- The outside world during one run: the result of each call. -/
structure Env where
  /-- The result of `http.Get(url)`. -/
  httpGet : String → Except Error Response
  /-- The result of `json.Unmarshal(body, &gcoreResp)`. -/
  unmarshal : GoString → Except Error GcoreResponse
  /-- The result of `ioutil.WriteFile(path, content, perm)`: `none` is `nil`. -/
  writeFile : String → GoString → Nat → Option Error
  /-- The result of `exec.Command("nginx", "-s", "reload").Run()`. -/
  nginxReload : Option Error

/-! ## The fetchers -/

/-- Embeds `fetchGcoreIPs`: GET, read the body, decode, and return
`append(gcoreResp.Addresses, gcoreResp.AddressesV6...)`. The second component
is the calls made; the body is closed (`defer`) once the GET has succeeded. -/
def fetchGcoreIPs (env : Env) (url : String) :
    Except Error (List GoString) × List Event :=
  match env.httpGet url with
  | .error err => (.error err, [.httpGet url])
  | .ok resp =>
    match resp.readAll with
    | .error err => (.error err, [.httpGet url, .bodyClose url])
    | .ok body =>
      match env.unmarshal body with
      | .error err => (.error err, [.httpGet url, .bodyClose url])
      | .ok gcoreResp =>
        (.ok (gcoreResp.Addresses ++ gcoreResp.AddressesV6),
          [.httpGet url, .bodyClose url])

/-- Embeds `fetchIPs`: GET, read the body, split it on `"\n"`. -/
def fetchIPs (env : Env) (url : String) :
    Except Error (List GoString) × List Event :=
  match env.httpGet url with
  | .error err => (.error err, [.httpGet url])
  | .ok resp =>
    match resp.readAll with
    | .error err => (.error err, [.httpGet url, .bodyClose url])
    | .ok body => (.ok (Split body nl), [.httpGet url, .bodyClose url])

/-! ## The renderer and writer -/

/-- The formatted line `fmt.Sprintf("allow %s;\n", ip)`. -/
def allowLine (ip : GoString) : GoString := lit "allow " ++ ip ++ lit ";\n"

/-- The header written first by `writeConfig`. -/
def header : GoString := lit "# NGINX IP Whitelist\n"

/-- The line written last by `writeConfig`. -/
def denyAll : GoString := lit "deny all;\n"

/-- The `strings.Builder` of `writeConfig` after the loop and the final
`WriteString`: `content := builder.String()`. -/
def configContent (ips : List GoString) : GoString :=
  let builder : GoString := header
  let builder := ips.foldl
    (fun builder ip => if ip ≠ [] then builder ++ allowLine ip else builder) builder
  builder ++ denyAll

/-- Specification side of the renderer: the allow lines of a list, one
`"allow <a>;\n"` per non-empty entry `a`, in the order of the list. -/
def allowLines (ips : List GoString) : GoString :=
  ((ips.filter (fun a => a ≠ [])).map allowLine).flatten

/-- The number of entries that are not the empty string. -/
def nonEmptyCount (ips : List GoString) : Nat :=
  (ips.filter (fun a => a ≠ [])).length

/-- Embeds `writeConfig`: build the document, write it with mode `0644`,
return `(0, err)` when the write fails and `(strings.Count(content, "\n"), nil)`
otherwise. The list is the call made. -/
def writeConfig (env : Env) (ips : List GoString) (filepath : String) :
    (Nat × Option Error) × List Event :=
  let content := configContent ips
  match env.writeFile filepath content 0o644 with
  | some err => ((0, some err), [.writeFile filepath content 0o644])
  | none =>
    let lines := Count content nl
    ((lines, none), [.writeFile filepath content 0o644])

/-- Embeds `reloadNginx`: run `nginx -s reload`. -/
def reloadNginx (env : Env) : Option Error × List Event :=
  (env.nginxReload, [.exec "nginx" ["-s", "reload"]])

/-! ## The pipeline -/

/-- URL of provider A. -/
def gcoreURL : String := "https://api.gcore.com/cdn/public-ip-list"

/-- URL of provider B, IPv4. -/
def cloudflareV4URL : String := "https://www.cloudflare.com/ips-v4"

/-- URL of provider B, IPv6. -/
def cloudflareV6URL : String := "https://www.cloudflare.com/ips-v6"

/-- Embeds `executeTask`. The function has no result; the value is the list of
calls it made, in order, up to its return. -/
def executeTask (env : Env) (filepath : String) : List Event :=
  match fetchGcoreIPs env gcoreURL with
  | (.error err, t1) => t1 ++ [.print ("Error fetching Gcore IPs: " ++ err ++ "\n")]
  | (.ok gcoreIPs, t1) =>
    match fetchIPs env cloudflareV4URL with
    | (.error err, t2) =>
      t1 ++ t2 ++ [.print ("Error fetching Cloudflare IPv4 IPs: " ++ err ++ "\n")]
    | (.ok cloudflareIPv4, t2) =>
      match fetchIPs env cloudflareV6URL with
      | (.error err, t3) =>
        t1 ++ t2 ++ t3 ++ [.print ("Error fetching Cloudflare IPv6 IPs: " ++ err ++ "\n")]
      | (.ok cloudflareIPv6, t3) =>
        let allIPs := gcoreIPs ++ cloudflareIPv4
        let allIPs := allIPs ++ cloudflareIPv6
        match writeConfig env allIPs filepath with
        | ((_, some err), t4) =>
          t1 ++ t2 ++ t3 ++ t4 ++ [.print ("Error writing config: " ++ err ++ "\n")]
        | ((lines, none), t4) =>
          let t5 : List Event :=
            [.print ("NGINX whitelist configuration has been written to " ++ filepath
              ++ " with " ++ toString lines ++ " lines\n")]
          match reloadNginx env with
          | (some err, t6) =>
            t1 ++ t2 ++ t3 ++ t4 ++ t5 ++ t6 ++ [.print ("Error reloading NGINX: " ++ err ++ "\n")]
          | (none, t6) =>
            t1 ++ t2 ++ t3 ++ t4 ++ t5 ++ t6 ++ [.print "NGINX configuration reloaded successfully\n"]

/-! ## Package `time`

An instant is a number of nanoseconds since the Unix epoch together with the
location it is shown in. A location is given by its zone lookup: for every
instant, the offset from UTC in use and the span of instants over which that
offset stays in use. Zones with transitions (daylight saving time) and zones
with a fixed offset are both locations. -/

/-- The constant `alpha = -1 << 63` of the zone tables: the start of time. -/
def zoneAlpha : Int := -9223372036854775808

/-- The constant `omega = 1<<63 - 1` of the zone tables: the end of time. -/
def zoneOmega : Int := 9223372036854775807

/-- The result of `l.lookup(sec)`: the offset in seconds east of UTC in use at
the instant `sec`, and the instants `start` (included) and `stop` (Go's `end`,
excluded) between which that offset is in use. -/
structure ZoneSpan where
  offset : Int
  start : Int
  stop : Int
deriving DecidableEq, Repr

/-- A `*time.Location`, by its method `lookup`. -/
structure Location where
  lookup : Int → ZoneSpan

/-- Go function `time.FixedZone(name, offset)`: the location that always uses
the given offset. -/
def FixedZone (offset : Int) : Location :=
  { lookup := fun _ => { offset := offset, start := zoneAlpha, stop := zoneOmega } }

/-- The location `time.UTC`. -/
def UTC : Location := FixedZone 0

/-- A `time.Time`: nanoseconds since 1970-01-01T00:00:00Z, and the location. -/
structure Time where
  unixNano : Int
  loc : Location

/-- A `time.Duration`: a number of nanoseconds. -/
abbrev Duration := Int

/-- The constant `time.Second`. -/
def Second : Duration := 1000000000

/-- The constant `time.Hour`. -/
def Hour : Duration := 3600 * Second

/-- The largest `Duration`, `1<<63 - 1`. -/
def maxDuration : Duration := 9223372036854775807

/-- The smallest `Duration`, `-1 << 63`. -/
def minDuration : Duration := -9223372036854775808

/-- Seconds in a day. -/
def secondsPerDay : Int := 86400

/-- The civil date (year, month, day) of the day that is `z` days after
1970-01-01, in the proleptic Gregorian calendar. -/
def civilFromDays (z : Int) : Int × Int × Int :=
  let z := z + 719468
  let era := z / 146097
  let doe := z % 146097
  let yoe := (doe - doe / 1460 + doe / 36524 - doe / 146096) / 365
  let doy := doe - (365 * yoe + yoe / 4 - yoe / 100)
  let mp := (5 * doy + 2) / 153
  let d := doy - (153 * mp + 2) / 5 + 1
  let m := if mp < 10 then mp + 3 else mp - 9
  let y := yoe + era * 400 + (if m ≤ 2 then 1 else 0)
  (y, m, d)

/-- The number of days from 1970-01-01 to the given civil date (month in
1..12; the day may lie outside the month and then counts on linearly, as
in `time.Date`). -/
def daysFromCivil (y m d : Int) : Int :=
  let y := if m ≤ 2 then y - 1 else y
  let era := y / 400
  let yoe := y % 400
  let mp := if m > 2 then m - 3 else m + 9
  let doy := (153 * mp + 2) / 5 + d - 1
  let doe := yoe * 365 + yoe / 4 - yoe / 100 + doy
  era * 146097 + doe - 719468

namespace Time

/-- Seconds since the Unix epoch (`t.unixSec()`). -/
def sec (t : Time) : Int := t.unixNano / 1000000000

/-- The seconds since the epoch as shown in the location of `t` (`t.abs()`,
up to the constant shift of the internal epoch): the offset in use at `t` is
added. -/
def abs (t : Time) : Int := t.sec + (t.loc.lookup t.sec).offset

/-- The civil date of `t` in its location (`t.Date()`). -/
def date (t : Time) : Int × Int × Int := civilFromDays (t.abs / secondsPerDay)

/-- Method `t.Year()`: the year of `t` in its location. -/
def Year (t : Time) : Int := t.date.1

/-- Method `t.Month()`: the month of the year, 1..12. -/
def Month (t : Time) : Int := t.date.2.1

/-- Method `t.Day()`: the day of the month. -/
def Day (t : Time) : Int := t.date.2.2

/-- Method `t.Hour()`: the hour within the day, 0..23. -/
def Hour (t : Time) : Int := t.abs % secondsPerDay / 3600

/-- Method `t.Minute()`: the minute within the hour, 0..59. -/
def Minute (t : Time) : Int := t.abs % 3600 / 60

/-- Method `t.Second()`: the second within the minute, 0..59. -/
def Second (t : Time) : Int := t.abs % 60

/-- Method `t.Nanosecond()`: the nanosecond within the second. -/
def Nanosecond (t : Time) : Int := t.unixNano % 1000000000

/-- Method `t.Location()`. -/
def Location (t : Time) : NginxWhitelist.Location := t.loc

/-- Method `t.After(u)`: the instant `t` is strictly after `u`. -/
def After (t u : Time) : Bool := decide (t.unixNano > u.unixNano)

/-- Method `t.Add(d)`: the instant `t + d`, in the same location. -/
def Add (t : Time) (d : Duration) : Time := { t with unixNano := t.unixNano + d }

/-- Method `t.Sub(u)`: the duration `t - u`, saturated to the range of `Duration`. -/
def Sub (t u : Time) : Duration :=
  let d := t.unixNano - u.unixNano
  if d > maxDuration then maxDuration
  else if d < minDuration then minDuration
  else d

end Time

/-- Go function `time.Date(year, month, day, hour, min, sec, nsec, loc)`: values outside
their usual ranges are normalised, each unit overflowing into the next. The
local time is then turned into an instant: the zone is looked up at the local
time read as UTC, and looked up again at the instant found when that instant
lies outside the span of the first zone. -/
def Date (year month day hour min sec nsec : Int) (loc : Location) : Time :=
  let m := month - 1
  let year := year + m / 12
  let m := m % 12
  let month := m + 1
  let sec := sec + nsec / 1000000000
  let nsec := nsec % 1000000000
  let min := min + sec / 60
  let sec := sec % 60
  let hour := hour + min / 60
  let min := min % 60
  let day := day + hour / 24
  let hour := hour % 24
  let d := daysFromCivil year month day
  let abs := d * secondsPerDay + hour * 3600 + min * 60 + sec
  let unix := abs
  let zone := loc.lookup unix
  let unix :=
    if zone.offset ≠ 0 then
      let utc := unix - zone.offset
      let offset :=
        if utc < zone.start ∨ utc ≥ zone.stop then (loc.lookup utc).offset else zone.offset
      unix - offset
    else unix
  { unixNano := unix * 1000000000 + nsec, loc := loc }

/-- Go function `time.Until(t)`, that is `t.Sub(time.Now())`, where `clock` is what this
call of `time.Now()` reads. -/
def Until (clock : Time) (t : Time) : Duration := t.Sub clock

/-! ## The scheduler -/

/-- The command-line flags after `flag.Parse()`. -/
structure Flags where
  location : String
  filename : String
  hour : Int
  help : Bool

/-- The default values of the flags. -/
def defaultFlags : Flags :=
  { location := "/etc/nginx/conf.d", filename := "allow.conf", hour := 3, help := false }

/-- The value of `next` when the loop of `main` reaches `time.Sleep`: today's
date at `hour:00:00.0` in the location of `now`, moved on by 24 hours if
`now.After(next)`. -/
def nextRun (now : Time) (hour : Int) : Time :=
  let next := Date now.Year now.Month now.Day hour 0 0 0 now.Location
  if now.After next then next.Add (24 * Hour) else next

/-- One pass of the `for` loop of `main`: `now` is read, `next` computed, the
program sleeps for `time.Until(next)` (clock read again: `clock`) and runs the
task. -/
def loopBody (env : Env) (now clock : Time) (hour : Int) (filepath : String) :
    List Event :=
  let next := nextRun now hour
  [Event.sleep (Until clock next)] ++ executeTask env filepath

/-- The first `n` passes of the `for` loop of `main`. Pass `k` (from 0) reads
the clock as `clock k` (for `now`, then inside `time.Until`) and runs the task
in the world `envs (k + 1)`. -/
def schedulerLoop (envs : Nat → Env) (clock : Nat → Time × Time) (hour : Int)
    (filepath : String) : Nat → List Event
  | 0 => []
  | n + 1 =>
    schedulerLoop envs clock hour filepath n ++
      loopBody (envs (n + 1)) (clock n).1 (clock n).2 hour filepath

/-- Embeds `main`, observed for the first `n` passes of its endless loop:
with `-help` it prints the usage and returns; otherwise it runs the task once
(world `envs 0`) and enters the loop. -/
def main (flags : Flags) (envs : Nat → Env) (clock : Nat → Time × Time) (n : Nat) :
    List Event :=
  if flags.help then [Event.usage]
  else
    let filepath := flags.location ++ "/" ++ flags.filename
    executeTask (envs 0) filepath ++ schedulerLoop envs clock flags.hour filepath n

/-! ## Observations on a list of calls -/

/-- The call writes a file. -/
def Event.isWrite : Event → Bool
  | .writeFile _ _ _ => true
  | _ => false

/-- The call runs a command (the reload). -/
def Event.isExec : Event → Bool
  | .exec _ _ => true
  | _ => false

/-- The call is a GET of the given URL. -/
def Event.isGet (url : String) : Event → Bool
  | .httpGet u => u == url
  | _ => false

/-! ## Concrete instants and worlds used to instantiate the theorems -/

/-- The instant 2024-03-01T03:00:00.000000000+01:00. -/
def threeAM : Time := { unixNano := 1709258400000000000, loc := FixedZone 3600 }

/-- The instant 2024-03-01T03:00:00.000000005+01:00, five nanoseconds later. -/
def threeAMPlus5 : Time := { unixNano := 1709258400000000005, loc := FixedZone 3600 }

/-- The instant 2024-03-01T02:59:59.999999999+01:00, one nanosecond earlier. -/
def beforeThreeAM : Time := { unixNano := 1709258399999999999, loc := FixedZone 3600 }

/-- The instant 2024-02-29T22:15:30.000000123+01:00. -/
def lateEvening : Time := { unixNano := 1709241330000000123, loc := FixedZone 3600 }

/-- The zone America/New_York as it is during 2024: UTC-5 until
2024-03-10T07:00:00Z, UTC-4 until 2024-11-03T06:00:00Z, UTC-5 afterwards. -/
def newYork : Location where
  lookup := fun sec =>
    if sec < 1710054000 then { offset := -18000, start := zoneAlpha, stop := 1710054000 }
    else if sec < 1730613600 then { offset := -14400, start := 1710054000, stop := 1730613600 }
    else { offset := -18000, start := 1730613600, stop := zoneOmega }

/-- The instant 2024-11-03T01:00:00-05:00 in New York: the second time that
day the local clock reads 01:00:00. -/
def secondOneAM : Time := { unixNano := 1730613600000000000, loc := newYork }

/-- The instant 2024-11-03T01:00:00-04:00 in New York: the first time that day
the local clock reads 01:00:00. -/
def firstOneAM : Time := { unixNano := 1730610000000000000, loc := newYork }


/-- A world in which every call succeeds: provider A decodes to one IPv4 and
one IPv6 address, provider B answers two short plain-text bodies. -/
def okEnv : Env where
  httpGet := fun url =>
    if url = cloudflareV4URL then .ok ⟨.ok (lit "2.2.2.2\n3.3.3.3\n")⟩
    else if url = cloudflareV6URL then .ok ⟨.ok (lit "::2\n")⟩
    else .ok ⟨.ok (lit "\x7b\"addresses\":[\"1.1.1.1\"],\"addresses_v6\":[\"::1\"]\x7d")⟩
  unmarshal := fun _ => .ok ⟨[lit "1.1.1.1"], [lit "::1"]⟩
  writeFile := fun _ _ _ => none
  nginxReload := none

/-- The world `okEnv` with a directory that cannot be written. -/
def writeFailEnv : Env := { okEnv with writeFile := fun _ _ _ => some "permission denied" }

/-- The world `okEnv` with provider A unreachable. -/
def gcoreDownEnv : Env :=
  { okEnv with
    httpGet := fun url =>
      if url = gcoreURL then Except.error "connection refused" else okEnv.httpGet url }

/-- The world `okEnv` with provider B's IPv4 list unreachable. -/
def v4DownEnv : Env :=
  { okEnv with
    httpGet := fun url =>
      if url = cloudflareV4URL then Except.error "connection refused" else okEnv.httpGet url }

/-- The world `okEnv` with provider B's IPv6 list unreachable. -/
def v6DownEnv : Env :=
  { okEnv with
    httpGet := fun url =>
      if url = cloudflareV6URL then Except.error "connection refused" else okEnv.httpGet url }

/-! # Theorems -/

/-! ## The calendar -/

/-- The calendar at some known dates: the epoch, the day before it, the leap
day of 2000 and the day after, and the first day of year 1. -/
theorem civilFromDays_known :
    civilFromDays 0 = (1970, 1, 1) ∧ civilFromDays (-1) = (1969, 12, 31) ∧
      civilFromDays 11016 = (2000, 2, 29) ∧ civilFromDays 11017 = (2000, 3, 1) ∧
      civilFromDays (-719162) = (1, 1, 1) ∧ daysFromCivil 2024 3 1 = 19783 := by
  decide

/-- Within a 400-year era the year of the era lies in 0..399 and the day of
the year in 0..365. -/
theorem doy_range (doe : Int) (h0 : 0 ≤ doe) (h1 : doe < 146097) :
    0 ≤ (doe - doe / 1460 + doe / 36524 - doe / 146096) / 365 ∧
    (doe - doe / 1460 + doe / 36524 - doe / 146096) / 365 < 400 ∧
    0 ≤ doe - (365 * ((doe - doe / 1460 + doe / 36524 - doe / 146096) / 365)
      + (doe - doe / 1460 + doe / 36524 - doe / 146096) / 365 / 4
      - (doe - doe / 1460 + doe / 36524 - doe / 146096) / 365 / 100) ∧
    doe - (365 * ((doe - doe / 1460 + doe / 36524 - doe / 146096) / 365)
      + (doe - doe / 1460 + doe / 36524 - doe / 146096) / 365 / 4
      - (doe - doe / 1460 + doe / 36524 - doe / 146096) / 365 / 100) ≤ 365 := by
  generalize hyoe : (doe - doe / 1460 + doe / 36524 - doe / 146096) / 365 = yoe
  have hc : doe / 36524 = 0 ∨ doe / 36524 = 1 ∨ doe / 36524 = 2 ∨ doe / 36524 = 3 ∨
      doe / 36524 = 4 := by omega
  have hf : yoe / 100 = 0 ∨ yoe / 100 = 1 ∨ yoe / 100 = 2 ∨ yoe / 100 = 3 := by omega
  rcases hc with hc | hc | hc | hc | hc <;> rcases hf with hf | hf | hf | hf <;> omega

/-- The month of a civil date lies in 1..12. -/
theorem civil_month_range (z : Int) :
    1 ≤ (civilFromDays z).2.1 ∧ (civilFromDays z).2.1 ≤ 12 := by
  simp only [civilFromDays]
  split <;> omega

/-- Converting a day number to its civil date and back gives the day number. -/
theorem daysFromCivil_civilFromDays (z : Int) :
    daysFromCivil (civilFromDays z).1 (civilFromDays z).2.1 (civilFromDays z).2.2 = z := by
  simp only [civilFromDays, daysFromCivil]
  generalize hdoe : (z + 719468) % 146097 = doe
  generalize hera : (z + 719468) / 146097 = era
  have hz : z + 719468 = 146097 * era + doe := by omega
  have hdoe0 : 0 ≤ doe ∧ doe < 146097 := by omega
  obtain ⟨hy0, hy1, hd0, hd1⟩ := doy_range doe hdoe0.1 hdoe0.2
  generalize hyoe : (doe - doe / 1460 + doe / 36524 - doe / 146096) / 365 = yoe at hy0 hy1 hd0 hd1
  generalize hdoy : doe - (365 * yoe + yoe / 4 - yoe / 100) = doy at hd0 hd1
  generalize hmp : (5 * doy + 2) / 153 = mp
  have hmp0 : 0 ≤ mp ∧ mp ≤ 11 := by omega
  by_cases h10 : mp < 10
  · have e1 : (if mp < 10 then mp + 3 else mp - 9) = mp + 3 := if_pos h10
    simp only [e1]
    have e2 : ¬ (mp + 3 ≤ 2) := by omega
    have e3 : mp + 3 > 2 := by omega
    simp only [e2, e3, if_false, if_true]
    have e4 : mp + 3 - 3 = mp := by omega
    have e5 : (yoe + era * 400 + 0) / 400 = era := by omega
    have e6 : (yoe + era * 400 + 0) % 400 = yoe := by omega
    rw [e4, e5, e6]
    omega
  · have e1 : (if mp < 10 then mp + 3 else mp - 9) = mp - 9 := if_neg h10
    simp only [e1]
    have e2 : mp - 9 ≤ 2 := by omega
    have e3 : ¬ (mp - 9 > 2) := by omega
    simp only [e2, e3, if_false, if_true]
    have e4 : mp - 9 + 9 = mp := by omega
    have e5 : (yoe + era * 400 + 1 - 1) / 400 = era := by omega
    have e6 : (yoe + era * 400 + 1 - 1) % 400 = yoe := by omega
    rw [e4, e5, e6]
    omega

/-- The candidate instant of the loop, in any location: `time.Date` of the
date of `now` at `hour:00:00.0` is local midnight of that day plus `hour`
hours, turned into an instant by the zone lookup. -/
theorem Date_today (now : Time) (hour : Int) :
    Date now.Year now.Month now.Day hour 0 0 0 now.Location =
      { unixNano :=
          (if (now.loc.lookup (now.abs / 86400 * 86400 + hour * 3600)).offset ≠ 0 then
            now.abs / 86400 * 86400 + hour * 3600 -
              (if now.abs / 86400 * 86400 + hour * 3600
                    - (now.loc.lookup (now.abs / 86400 * 86400 + hour * 3600)).offset
                    < (now.loc.lookup (now.abs / 86400 * 86400 + hour * 3600)).start ∨
                  now.abs / 86400 * 86400 + hour * 3600
                    - (now.loc.lookup (now.abs / 86400 * 86400 + hour * 3600)).offset
                    ≥ (now.loc.lookup (now.abs / 86400 * 86400 + hour * 3600)).stop
                then (now.loc.lookup (now.abs / 86400 * 86400 + hour * 3600
                    - (now.loc.lookup (now.abs / 86400 * 86400 + hour * 3600)).offset)).offset
                else (now.loc.lookup (now.abs / 86400 * 86400 + hour * 3600)).offset)
          else now.abs / 86400 * 86400 + hour * 3600) * 1000000000,
        loc := now.loc } := by
  have hm := civil_month_range (now.abs / secondsPerDay)
  have hr := daysFromCivil_civilFromDays (now.abs / secondsPerDay)
  simp only [Date, Time.Year, Time.Month, Time.Day, Time.date, Time.Location]
  generalize hY : (civilFromDays (now.abs / secondsPerDay)).1 = Y at hr
  generalize hM : (civilFromDays (now.abs / secondsPerDay)).2.1 = M at hr hm
  generalize hD : (civilFromDays (now.abs / secondsPerDay)).2.2 = D at hr
  have e1 : (M - 1) / 12 = 0 := by omega
  have e2 : (M - 1) % 12 + 1 = M := by omega
  have e3 : daysFromCivil (Y + (M - 1) / 12) ((M - 1) % 12 + 1)
      (D + (hour + (0 + (0 + 0 / 1000000000) / 60) / 60) / 24)
        = daysFromCivil Y M D + hour / 24 := by
    rw [e1, e2]
    simp only [daysFromCivil]
    split_ifs <;> omega
  rw [e3, hr]
  have hL : (now.abs / secondsPerDay + hour / 24) * secondsPerDay
        + (hour + (0 + (0 + 0 / 1000000000) / 60) / 60) % 24 * 3600
        + (0 + (0 + 0 / 1000000000) / 60) % 60 * 60 + (0 + 0 / 1000000000) % 60
      = now.abs / 86400 * 86400 + hour * 3600 := by
    simp only [secondsPerDay]
    omega
  rw [hL]
  simp only [Int.zero_emod, add_zero]

/-- The candidate instant of the loop in a location with a fixed offset. -/
theorem Date_today_fixed (now : Time) (hour off : Int) (hloc : now.loc = FixedZone off) :
    Date now.Year now.Month now.Day hour 0 0 0 now.Location =
      { unixNano := (now.abs / 86400 * 86400 + hour * 3600 - off) * 1000000000,
        loc := now.loc } := by
  rw [Date_today]
  simp only [hloc, FixedZone]
  congr 1
  split_ifs <;> omega

/-- The local seconds of an instant in a location with a fixed offset. -/
theorem abs_fixed (t : Time) (off : Int) (hloc : t.loc = FixedZone off) :
    t.abs = t.unixNano / 1000000000 + off := by
  simp only [Time.abs, Time.sec, hloc, FixedZone]

/-! ## Strings -/

theorem Count_append (a b : GoString) (c : UInt8) :
    Count (a ++ b) c = Count a c + Count b c := by
  induction a with
  | nil => simp [Count]
  | cons x xs ih =>
    show Count (x :: (xs ++ b)) c = Count (x :: xs) c + Count b c
    simp only [Count, ih]
    split <;> omega

theorem Count_eq_zero (s : GoString) (c : UInt8) : Count s c = 0 ↔ c ∉ s := by
  induction s with
  | nil => simp [Count]
  | cons x xs ih =>
    simp only [Count, List.mem_cons, not_or]
    by_cases h : x = c
    · simp [h]
    · simp only [h, if_false, ih]
      constructor
      · intro hm; exact ⟨fun e => h e.symm, hm⟩
      · intro hm; exact hm.2

theorem IndexByte_none (s : GoString) (c : UInt8) (h : IndexByte s c = none) : c ∉ s := by
  induction s with
  | nil => simp
  | cons x xs ih =>
    simp only [IndexByte] at h
    by_cases hx : x = c
    · simp [hx] at h
    · simp only [hx, if_false, Option.map_eq_none'] at h
      simp only [List.mem_cons, not_or]
      exact ⟨fun e => hx e.symm, ih h⟩

theorem IndexByte_some (s : GoString) (c : UInt8) (m : Nat) (h : IndexByte s c = some m) :
    c ∉ s.take m ∧ s = s.take m ++ c :: s.drop (m + 1) ∧
      Count s c = Count (s.drop (m + 1)) c + 1 := by
  induction s generalizing m with
  | nil => simp [IndexByte] at h
  | cons x xs ih =>
    simp only [IndexByte] at h
    by_cases hx : x = c
    · simp only [hx, if_true, Option.some.injEq] at h
      subst h
      subst hx
      simp [Count]
    · simp only [hx, if_false, Option.map_eq_some'] at h
      obtain ⟨k, hk, rfl⟩ := h
      obtain ⟨h1, h2, h3⟩ := ih k hk
      refine ⟨?_, ?_, ?_⟩
      · simp only [List.take_succ_cons, List.mem_cons, not_or]
        exact ⟨fun e => hx e.symm, h1⟩
      · simp only [List.take_succ_cons, List.drop_succ_cons, List.cons_append]
        exact congrArg _ h2
      · simp only [Count, hx, if_false, List.drop_succ_cons]
        exact h3

theorem genSplitLoop_ne_nil (sep : UInt8) (k : Nat) (s : GoString) :
    genSplitLoop sep k s ≠ [] := by
  cases k with
  | zero => simp [genSplitLoop]
  | succ k =>
    simp only [genSplitLoop]
    split <;> simp

theorem Join_cons (a : GoString) (rest : List GoString) (sep : UInt8) (h : rest ≠ []) :
    Join (a :: rest) sep = a ++ sep :: Join rest sep := by
  cases rest with
  | nil => exact absurd rfl h
  | cons b r => simp [Join]

theorem Join_genSplitLoop (sep : UInt8) (k : Nat) (s : GoString) :
    Join (genSplitLoop sep k s) sep = s := by
  induction k generalizing s with
  | zero => simp [genSplitLoop, Join]
  | succ k ih =>
    simp only [genSplitLoop]
    split
    · simp [Join]
    · rename_i m hm
      rw [Join_cons _ _ _ (genSplitLoop_ne_nil _ _ _), ih]
      exact (IndexByte_some s sep m hm).2.1.symm

theorem genSplitLoop_no_sep (sep : UInt8) (k : Nat) (s : GoString) (hk : Count s sep ≤ k) :
    ∀ a ∈ genSplitLoop sep k s, sep ∉ a := by
  induction k generalizing s with
  | zero =>
    intro a ha
    simp only [genSplitLoop, List.mem_singleton] at ha
    subst ha
    exact (Count_eq_zero _ sep).1 (by omega)
  | succ k ih =>
    intro a ha
    simp only [genSplitLoop] at ha
    split at ha
    · rename_i hm
      simp only [List.mem_singleton] at ha
      subst ha
      exact IndexByte_none _ sep hm
    · rename_i m hm
      obtain ⟨h1, _, h3⟩ := IndexByte_some s sep m hm
      simp only [List.mem_cons] at ha
      rcases ha with ha | ha
      · subst ha; exact h1
      · exact ih _ (by omega) a ha

theorem getLast?_cons_ne_nil {α : Type} (a : α) (l : List α) (h : l ≠ []) :
    (a :: l).getLast? = l.getLast? := by
  cases l with
  | nil => exact absurd rfl h
  | cons b r => exact List.getLast?_cons_cons

theorem getLast?_append_cons {α : Type} (l : List α) (a : α) (r : List α) :
    (l ++ a :: r).getLast? = (a :: r).getLast? := by
  induction l with
  | nil => rfl
  | cons x xs ih =>
    rw [List.cons_append, getLast?_cons_ne_nil _ _ (by simp), ih]

theorem genSplitLoop_getLast (sep : UInt8) (k : Nat) (s : GoString) (hk : Count s sep ≤ k)
    (hs : s.getLast? = some sep) : (genSplitLoop sep k s).getLast? = some [] := by
  induction k generalizing s with
  | zero =>
    have h0 : sep ∉ s := (Count_eq_zero _ sep).1 (by omega)
    exact absurd (List.mem_of_getLast?_eq_some hs) h0
  | succ k ih =>
    simp only [genSplitLoop]
    split
    · rename_i hm
      exact absurd (List.mem_of_getLast?_eq_some hs) (IndexByte_none _ sep hm)
    · rename_i m hm
      obtain ⟨_, h2, h3⟩ := IndexByte_some s sep m hm
      rw [getLast?_cons_ne_nil _ _ (genSplitLoop_ne_nil _ _ _)]
      by_cases hd : s.drop (m + 1) = []
      · rw [hd]
        cases k <;> simp [genSplitLoop, IndexByte]
      · apply ih _ (by omega)
        rw [h2, getLast?_append_cons, getLast?_cons_ne_nil _ _ hd] at hs
        exact hs

/-! ## The renderer -/

theorem foldl_allow (ips : List GoString) (acc : GoString) :
    ips.foldl (fun builder ip => if ip ≠ [] then builder ++ allowLine ip else builder) acc
      = acc ++ allowLines ips := by
  induction ips generalizing acc with
  | nil => simp [allowLines]
  | cons a l ih =>
    simp only [List.foldl_cons, ih]
    by_cases h : a = []
    · simp [h, allowLines]
    · simp [h, allowLines, List.filter_cons]

theorem configContent_eq (ips : List GoString) :
    configContent ips = header ++ allowLines ips ++ denyAll := by
  simp only [configContent, foldl_allow]

theorem allowLines_append (a b : List GoString) :
    allowLines (a ++ b) = allowLines a ++ allowLines b := by
  simp [allowLines]

theorem Count_allowLine (ip : GoString) : Count (allowLine ip) nl = Count ip nl + 1 := by
  have h1 : Count (lit "allow ") nl = 0 := by decide
  have h2 : Count (lit ";\n") nl = 1 := by decide
  simp only [allowLine, Count_append, h1, h2]
  omega

/-- The newline characters lying inside the entries of a list. -/
theorem Count_allowLines (ips : List GoString) :
    Count (allowLines ips) nl = nonEmptyCount ips + (ips.map (fun a => Count a nl)).sum := by
  induction ips with
  | nil => simp [allowLines, nonEmptyCount, Count]
  | cons a l ih =>
    have hcons : allowLines (a :: l) = allowLines [a] ++ allowLines l :=
      allowLines_append [a] l
    rw [hcons, Count_append, ih]
    by_cases h : a = []
    · subst h
      simp [allowLines, nonEmptyCount, Count]
    · simp only [allowLines, nonEmptyCount, List.filter_cons, h, ne_eq, not_false_eq_true,
        decide_True, if_true, List.filter_nil, List.map_cons, List.map_nil, List.flatten_cons,
        List.flatten_nil, List.append_nil, Count_allowLine, List.length_cons, List.sum_cons]
      omega

theorem Count_configContent (ips : List GoString) :
    Count (configContent ips) nl
      = 2 + nonEmptyCount ips + (ips.map (fun a => Count a nl)).sum := by
  have h1 : Count header nl = 1 := by decide
  have h2 : Count denyAll nl = 1 := by decide
  rw [configContent_eq, Count_append, Count_append, Count_allowLines, h1, h2]
  omega

theorem sum_Count_eq_zero (ips : List GoString) (h : ∀ a ∈ ips, nl ∉ a) :
    (ips.map (fun a => Count a nl)).sum = 0 := by
  induction ips with
  | nil => rfl
  | cons a l ih =>
    simp only [List.map_cons, List.sum_cons]
    rw [ih (fun b hb => h b (List.mem_cons_of_mem _ hb)),
      (Count_eq_zero a nl).2 (h a (List.mem_cons_self _ _))]

/-! ## Claims about the renderer and the fetchers -/

/-- C1, as stated, fails: the one-entry list `["1.1.1.1\n2.2.2.2"]` (a string
the JSON provider can deliver) is non-empty, the write succeeds, and
`writeConfig` returns 4 while `2 +` the number of non-empty entries is 3. -/
theorem C1_lineCount_counterexample :
    [lit "1.1.1.1\n2.2.2.2"] ≠ [] ∧
    okEnv.writeFile "allow.conf" (configContent [lit "1.1.1.1\n2.2.2.2"]) 0o644 = none ∧
    (writeConfig okEnv [lit "1.1.1.1\n2.2.2.2"] "allow.conf").1 = (4, none) ∧
    2 + nonEmptyCount [lit "1.1.1.1\n2.2.2.2"] = 3 := by
  decide

/-- C1, amended: for every non-empty address list, when the write succeeds
`writeConfig` returns 2 + the number of non-empty entries + the number of
newline characters inside the entries; this is 2 + the number of non-empty
entries when no entry contains a newline character. -/
theorem C1_lineCount_amended (env : Env) (L : List GoString) (filepath : String)
    (_hL : L ≠ []) (hw : env.writeFile filepath (configContent L) 0o644 = none) :
    (writeConfig env L filepath).1
        = (2 + nonEmptyCount L + (L.map (fun a => Count a nl)).sum, none) ∧
      ((∀ a ∈ L, nl ∉ a) → (writeConfig env L filepath).1 = (2 + nonEmptyCount L, none)) := by
  have h : (writeConfig env L filepath).1
      = (2 + nonEmptyCount L + (L.map (fun a => Count a nl)).sum, none) := by
    simp only [writeConfig, hw, Count_configContent]
  refine ⟨h, fun hnl => ?_⟩
  rw [h, sum_Count_eq_zero L hnl, Nat.add_zero]

/-- C1 amended, at a concrete list with an entry holding a newline. -/
theorem C1_lineCount_amended_witness :
    (writeConfig okEnv [lit "1.1.1.1\n2.2.2.2", [], lit "::1"] "allow.conf").1
      = (2 + 2 + 1, none) :=
  (C1_lineCount_amended okEnv [lit "1.1.1.1\n2.2.2.2", [], lit "::1"] "allow.conf"
    (by decide) (by decide)).1

/-- C2: the document of `writeConfig` is the header line, then one
`"allow <a>;\n"` per non-empty entry in the order of the list, then
`"deny all;\n"`; and when the three fetches of `executeTask` succeed the
document it writes has the allow lines of provider A, then those of provider
B's IPv4 list, then those of provider B's IPv6 list. -/
theorem C2_order_preserving (L : List GoString) :
    configContent L
        = lit "# NGINX IP Whitelist\n"
          ++ ((L.filter (fun a => a ≠ [])).map (fun a => lit "allow " ++ a ++ lit ";\n")).flatten
          ++ lit "deny all;\n" ∧
      ∀ (env : Env) (filepath : String) (a b c : List GoString),
        (fetchGcoreIPs env gcoreURL).1 = .ok a →
        (fetchIPs env cloudflareV4URL).1 = .ok b →
        (fetchIPs env cloudflareV6URL).1 = .ok c →
        ∃ rest, executeTask env filepath
          = (fetchGcoreIPs env gcoreURL).2 ++ (fetchIPs env cloudflareV4URL).2
            ++ (fetchIPs env cloudflareV6URL).2
            ++ [Event.writeFile filepath
                (header ++ allowLines a ++ allowLines b ++ allowLines c ++ denyAll) 0o644]
            ++ rest := by
  refine ⟨configContent_eq L, ?_⟩
  intro env filepath a b c ha hb hc
  have hcontent : configContent (a ++ b ++ c)
      = header ++ allowLines a ++ allowLines b ++ allowLines c ++ denyAll := by
    rw [configContent_eq, allowLines_append, allowLines_append]
    simp only [List.append_assoc]
  unfold executeTask
  rcases hA : fetchGcoreIPs env gcoreURL with ⟨ra, t1⟩
  rcases hB : fetchIPs env cloudflareV4URL with ⟨rb, t2⟩
  rcases hC : fetchIPs env cloudflareV6URL with ⟨rc, t3⟩
  rw [hA] at ha; rw [hB] at hb; rw [hC] at hc
  simp only at ha hb hc
  subst ha hb hc
  simp only [writeConfig, reloadNginx, hcontent]
  cases env.writeFile filepath
      (header ++ allowLines a ++ allowLines b ++ allowLines c ++ denyAll) 0o644 with
  | some err => exact ⟨_, rfl⟩
  | none =>
    cases env.nginxReload with
    | some err => exact ⟨_, by simp only [List.append_assoc]; rfl⟩
    | none => exact ⟨_, by simp only [List.append_assoc]; rfl⟩

/-- C2 at the world `okEnv`: the written document lists `1.1.1.1`, `::1`
(provider A), then `2.2.2.2`, `3.3.3.3` (B, IPv4), then `::2` (B, IPv6). -/
theorem C2_order_preserving_witness :
    ∃ rest, executeTask okEnv "allow.conf"
      = (fetchGcoreIPs okEnv gcoreURL).2 ++ (fetchIPs okEnv cloudflareV4URL).2
        ++ (fetchIPs okEnv cloudflareV6URL).2
        ++ [Event.writeFile "allow.conf"
            (header ++ allowLines [lit "1.1.1.1", lit "::1"]
              ++ allowLines [lit "2.2.2.2", lit "3.3.3.3", []]
              ++ allowLines [lit "::2", []] ++ denyAll) 0o644]
        ++ rest :=
  (C2_order_preserving []).2 okEnv "allow.conf" [lit "1.1.1.1", lit "::1"]
    [lit "2.2.2.2", lit "3.3.3.3", []] [lit "::2", []] rfl rfl rfl

/-- C6: the document of the empty address list is the header line followed by
the deny line, and a successful write of it returns the line count 2. -/
theorem C6_empty_list :
    configContent [] = lit "# NGINX IP Whitelist\ndeny all;\n" ∧
      ∀ (env : Env) (filepath : String),
        env.writeFile filepath (configContent []) 0o644 = none →
        (writeConfig env [] filepath).1 = (2, none) := by
  refine ⟨by decide, ?_⟩
  intro env filepath hw
  have h2 : Count (configContent []) nl = 2 := by decide
  simp only [writeConfig, hw, h2]

/-- C6 in the world `okEnv`. -/
theorem C6_empty_list_witness : (writeConfig okEnv [] "allow.conf").1 = (2, none) :=
  C6_empty_list.2 okEnv "allow.conf" (by decide)

/-- C7: `fetchIPs` returns the body split on the newline character: joining
the result with `"\n"` gives the body back, no element contains a newline, a
body ending in a newline gives a last element that is the empty string, the
fetcher returns that list as it is, and the renderer treats a list like the
list without its empty entries. The body `"2.2.2.2\n3.3.3.3\n"` splits into
`["2.2.2.2","3.3.3.3",""]`, which renders to exactly two allow lines. -/
theorem C7_split_newline (b : GoString) :
    Join (Split b nl) nl = b ∧
      (∀ a ∈ Split b nl, nl ∉ a) ∧
      (b.getLast? = some nl → (Split b nl).getLast? = some []) ∧
      (∀ (env : Env) (url : String) (resp : Response),
        env.httpGet url = .ok resp → resp.readAll = .ok b →
        (fetchIPs env url).1 = .ok (Split b nl)) ∧
      (∀ L : List GoString, configContent L = configContent (L.filter (fun a => a ≠ []))) ∧
      Split (lit "2.2.2.2\n3.3.3.3\n") nl = [lit "2.2.2.2", lit "3.3.3.3", lit ""] ∧
      configContent [lit "2.2.2.2", lit "3.3.3.3", lit ""]
        = lit "# NGINX IP Whitelist\nallow 2.2.2.2;\nallow 3.3.3.3;\ndeny all;\n" := by
  refine ⟨Join_genSplitLoop nl _ b, genSplitLoop_no_sep nl _ b (Nat.le_refl _),
    genSplitLoop_getLast nl _ b (Nat.le_refl _), ?_, ?_, by decide, by decide⟩
  · intro env url resp hget hread
    simp only [fetchIPs, hget, hread]
  · intro L
    simp only [configContent_eq, allowLines, List.filter_filter, Bool.and_self]

/-- C7 at the body `"2.2.2.2\n3.3.3.3\n"`, which ends with a newline: the
last element of the split is the empty string. -/
theorem C7_split_newline_witness :
    (Split (lit "2.2.2.2\n3.3.3.3\n") nl).getLast? = some [] :=
  (C7_split_newline (lit "2.2.2.2\n3.3.3.3\n")).2.2.1 (by decide)

/-- C8: when the GET, the read and the decoding succeed with
`addresses = A` and `addresses_v6 = B`, `fetchGcoreIPs` returns `A ++ B`; for
`A = ["1.1.1.1"]` and `B = ["::1"]` the fetched list renders to the header,
`allow 1.1.1.1;`, `allow ::1;` and the deny line. -/
theorem C8_gcore_concat (env : Env) (url : String) (resp : Response) (body : GoString)
    (A B : List GoString) (hget : env.httpGet url = .ok resp)
    (hread : resp.readAll = .ok body)
    (hdec : env.unmarshal body = .ok { Addresses := A, AddressesV6 := B }) :
    (fetchGcoreIPs env url).1 = .ok (A ++ B) ∧
      (A = [lit "1.1.1.1"] → B = [lit "::1"] →
        ∀ l, (fetchGcoreIPs env url).1 = .ok l →
          configContent l
            = lit "# NGINX IP Whitelist\nallow 1.1.1.1;\nallow ::1;\ndeny all;\n") := by
  have h : (fetchGcoreIPs env url).1 = .ok (A ++ B) := by
    simp only [fetchGcoreIPs, hget, hread, hdec]
  refine ⟨h, ?_⟩
  intro hA hB l hl
  rw [h] at hl
  injection hl with hl
  subst hl hA hB
  decide

/-- C8 in the world `okEnv`, whose provider A decodes to `["1.1.1.1"]` and
`["::1"]`. -/
theorem C8_gcore_concat_witness :
    (fetchGcoreIPs okEnv gcoreURL).1 = .ok ([lit "1.1.1.1"] ++ [lit "::1"]) ∧
      configContent ([lit "1.1.1.1"] ++ [lit "::1"])
        = lit "# NGINX IP Whitelist\nallow 1.1.1.1;\nallow ::1;\ndeny all;\n" :=
  have h := C8_gcore_concat okEnv gcoreURL
    ⟨.ok (lit "\x7b\"addresses\":[\"1.1.1.1\"],\"addresses_v6\":[\"::1\"]\x7d")⟩
    (lit "\x7b\"addresses\":[\"1.1.1.1\"],\"addresses_v6\":[\"::1\"]\x7d")
    [lit "1.1.1.1"] [lit "::1"] rfl rfl rfl
  ⟨h.1, h.2 rfl rfl _ h.1⟩

/-- C9: when no entry contains a newline character the number of newline
characters of the document is 2 + the number of non-empty entries, and that is
the count a successful `writeConfig` returns; every list returned by `fetchIPs`
is such a list; and for the list `["1.1.1.1\n2.2.2.2"]` the count is strictly
greater. -/
theorem C9_newline_count :
    (∀ L : List GoString, (∀ a ∈ L, nl ∉ a) →
      Count (configContent L) nl = 2 + nonEmptyCount L ∧
      ∀ (env : Env) (filepath : String),
        env.writeFile filepath (configContent L) 0o644 = none →
        (writeConfig env L filepath).1.1 = 2 + nonEmptyCount L) ∧
    (∀ (env : Env) (url : String) (l : List GoString),
      (fetchIPs env url).1 = .ok l → ∀ a ∈ l, nl ∉ a) ∧
    ∃ L : List GoString, Count (configContent L) nl > 2 + nonEmptyCount L := by
  refine ⟨?_, ?_, ⟨[lit "1.1.1.1\n2.2.2.2"], by decide⟩⟩
  · intro L hL
    have h : Count (configContent L) nl = 2 + nonEmptyCount L := by
      rw [Count_configContent, sum_Count_eq_zero L hL, Nat.add_zero]
    refine ⟨h, ?_⟩
    intro env filepath hw
    simp only [writeConfig, hw, h]
  · intro env url l hl
    unfold fetchIPs at hl
    split at hl
    · simp at hl
    · split at hl
      · simp at hl
      · simp only [Except.ok.injEq] at hl
        subst hl
        exact genSplitLoop_no_sep nl _ _ (Nat.le_refl _)

/-- C9 at the list that `fetchIPs` returns in the world `okEnv`. -/
theorem C9_newline_count_witness :
    Count (configContent [lit "2.2.2.2", lit "3.3.3.3", []]) nl
      = 2 + nonEmptyCount [lit "2.2.2.2", lit "3.3.3.3", []] :=
  (C9_newline_count.1 [lit "2.2.2.2", lit "3.3.3.3", []]
    (C9_newline_count.2.1 okEnv cloudflareV4URL _ rfl)).1

/-! ## The scheduler -/

/-- Two instants with the same nanoseconds and location are equal. -/
theorem Time_ext (a b : Time) (h1 : a.unixNano = b.unixNano) (h2 : a.loc = b.loc) :
    a = b := by
  cases a
  cases b
  simp only at h1 h2
  subst h1 h2
  rfl

/-- The instant computed by the loop in a location with a fixed offset, in
nanoseconds: local midnight of the day of `now` plus `hour` hours, plus 24
hours when `now` is strictly later. -/
theorem nextRun_eq (now : Time) (hour off : Int) (hloc : now.loc = FixedZone off) :
    nextRun now hour =
      { unixNano :=
          if now.unixNano >
              ((now.unixNano / 1000000000 + off) / 86400 * 86400 + hour * 3600 - off)
                * 1000000000
          then ((now.unixNano / 1000000000 + off) / 86400 * 86400 + hour * 3600 - off)
              * 1000000000 + 86400000000000
          else ((now.unixNano / 1000000000 + off) / 86400 * 86400 + hour * 3600 - off)
              * 1000000000,
        loc := now.loc } := by
  simp only [nextRun, Date_today_fixed now hour off hloc, abs_fixed now off hloc, Time.After,
    Time.Add, Hour, Second]
  split_ifs with h1 h2 h2
  · rfl
  · simp at h1; omega
  · simp at h1; omega
  · rfl

/-- A difference that fits a `Duration` is not saturated by `Sub`. -/
theorem Sub_eq (t u : Time) (h1 : t.unixNano - u.unixNano ≤ 9223372036854775807)
    (h2 : -9223372036854775808 ≤ t.unixNano - u.unixNano) :
    t.Sub u = t.unixNano - u.unixNano := by
  simp only [Time.Sub, maxDuration, minDuration]
  split_ifs <;> first | rfl | omega

/-- The difference of an instant and a later one is not positive. -/
theorem Sub_nonpos (t u : Time) (h : t.unixNano ≤ u.unixNano) : (t.Sub u : Int) ≤ 0 := by
  simp only [Time.Sub, maxDuration, minDuration]
  split_ifs with h1 h2
  · exfalso; omega
  · decide
  · exact (by omega : t.unixNano - u.unixNano ≤ 0)

/-- The difference of two instants is zero exactly when they are the same
instant. -/
theorem Sub_eq_zero (t u : Time) : (t.Sub u : Int) = 0 ↔ t.unixNano = u.unixNano := by
  simp only [Time.Sub, maxDuration, minDuration]
  split_ifs with h1 h2
  · constructor
    · intro h; exact absurd h (by decide)
    · intro h; omega
  · constructor
    · intro h; exact absurd h (by decide)
    · intro h; omega
  · constructor
    · intro h
      have h3 : t.unixNano - u.unixNano = 0 := h
      omega
    · intro h
      exact (by omega : t.unixNano - u.unixNano = 0)

/-- In New York on 2024-11-03 the local clock reads 01:00:00 twice. With the
configured hour 1 and `now` the second of the two instants, `time.Date` gives
the first one, `now` is after it, 24 hours are added, and the loop waits 23
hours for 2024-11-04T00:00:00-05:00. -/
theorem nextRun_newYork :
    secondOneAM.Hour = 1 ∧ secondOneAM.Minute = 0 ∧ secondOneAM.Second = 0 ∧
      secondOneAM.Nanosecond = 0 ∧
      (Date secondOneAM.Year secondOneAM.Month secondOneAM.Day 1 0 0 0
        secondOneAM.Location).unixNano = firstOneAM.unixNano ∧
      (nextRun secondOneAM 1).unixNano = firstOneAM.unixNano + 24 * Hour ∧
      Until secondOneAM (nextRun secondOneAM 1) = 23 * Hour ∧
      (nextRun secondOneAM 1).Hour = 0 := by
  decide

/-- C10, as stated, fails for the wait of the loop, which `time.Until(next)`
computes from a second reading of the clock. With the configured hour 3: when
`now` is 02:59:59.999999999 and the second reading is 03:00:00.0 the loop
sleeps for zero although `now` is not 03:00:00.0; when `now` is 03:00:00.0 and
the second reading is 5 ns later the loop sleeps for -5 ns, not zero. -/
theorem C10_next_run_counterexample :
    (beforeThreeAM.Hour = 2 ∧ beforeThreeAM.unixNano ≤ threeAM.unixNano ∧
      loopBody okEnv beforeThreeAM threeAM 3 "allow.conf"
        = Event.sleep 0 :: executeTask okEnv "allow.conf") ∧
    (threeAM.Hour = 3 ∧ threeAM.Minute = 0 ∧ threeAM.Second = 0 ∧ threeAM.Nanosecond = 0 ∧
      threeAM.unixNano ≤ threeAMPlus5.unixNano ∧
      loopBody okEnv threeAM threeAMPlus5 3 "allow.conf"
        = Event.sleep (-5) :: executeTask okEnv "allow.conf") :=
  ⟨⟨by decide, by decide, rfl⟩, ⟨by decide, by decide, by decide, by decide, by decide, rfl⟩⟩

/-- C10, amended: in a location with a fixed offset and for an hour in 0..23
the instant computed by the loop is in the location of `now`, has that hour
and zero minute, second and nanosecond, is not earlier than `now` and less than
24 hours after it; it is `now` exactly when `now` is itself `h:00:00.0`, and
otherwise it is the earliest instant strictly after `now` with hour `h` and
zero minute, second and nanosecond. The wait of the loop is `time.Until` of
that instant at a second reading of the clock: it is zero exactly when the
second reading is the computed instant; for a reading not before `now` it is at
most the distance from `now` to the computed instant, and for a reading between
`now` and the computed instant it is the distance to it; for the reading `now`
it is zero exactly when `now` is `h:00:00.0`. -/
theorem C10_next_run_amended (h : Int) (now : Time) (off : Int)
    (hloc : now.loc = FixedZone off) (h0 : 0 ≤ h) (h23 : h ≤ 23) :
    (nextRun now h).loc = now.loc ∧
    (nextRun now h).Hour = h ∧ (nextRun now h).Minute = 0 ∧
    (nextRun now h).Second = 0 ∧ (nextRun now h).Nanosecond = 0 ∧
    now.unixNano ≤ (nextRun now h).unixNano ∧
    (nextRun now h).unixNano < now.unixNano + 24 * Hour ∧
    ((nextRun now h).unixNano = now.unixNano ↔
      (now.Hour = h ∧ now.Minute = 0 ∧ now.Second = 0 ∧ now.Nanosecond = 0)) ∧
    (¬ (now.Hour = h ∧ now.Minute = 0 ∧ now.Second = 0 ∧ now.Nanosecond = 0) →
      now.unixNano < (nextRun now h).unixNano ∧
      ∀ t : Time, t.loc = now.loc → now.unixNano < t.unixNano →
        t.Hour = h → t.Minute = 0 → t.Second = 0 → t.Nanosecond = 0 →
        (nextRun now h).unixNano ≤ t.unixNano) ∧
    (∀ (env : Env) (clock : Time) (filepath : String),
      loopBody env now clock h filepath
        = Event.sleep (Until clock (nextRun now h)) :: executeTask env filepath) ∧
    (∀ clock : Time,
      Until clock (nextRun now h) = 0 ↔ clock.unixNano = (nextRun now h).unixNano) ∧
    (∀ clock : Time, now.unixNano ≤ clock.unixNano →
      Until clock (nextRun now h) ≤ (nextRun now h).unixNano - now.unixNano ∧
      (clock.unixNano ≤ (nextRun now h).unixNano →
        Until clock (nextRun now h) = (nextRun now h).unixNano - clock.unixNano)) ∧
    Until now (nextRun now h) = (nextRun now h).unixNano - now.unixNano ∧
    (Until now (nextRun now h) = 0 ↔
      (now.Hour = h ∧ now.Minute = 0 ∧ now.Second = 0 ∧ now.Nanosecond = 0)) := by
  have hle : now.unixNano ≤ (nextRun now h).unixNano := by
    rw [nextRun_eq now h off hloc]; dsimp only; split_ifs <;> omega
  have hlt : (nextRun now h).unixNano < now.unixNano + 24 * Hour := by
    rw [nextRun_eq now h off hloc]; simp only [Hour, Second]; split_ifs <;> omega
  have hlt2 : (nextRun now h).unixNano < now.unixNano + 86400000000000 := by
    simp only [Hour, Second] at hlt
    omega
  have hsub : Until now (nextRun now h) = (nextRun now h).unixNano - now.unixNano :=
    Sub_eq _ _ (by omega) (by omega)
  have hzero : (nextRun now h).unixNano = now.unixNano ↔
      (now.Hour = h ∧ now.Minute = 0 ∧ now.Second = 0 ∧ now.Nanosecond = 0) := by
    rw [nextRun_eq now h off hloc]
    simp only [Time.Hour, Time.Minute, Time.Second, Time.Nanosecond, Time.abs, Time.sec,
      secondsPerDay, hloc, FixedZone]
    constructor
    · intro hz
      split_ifs at hz <;> omega
    · intro hz
      split_ifs <;> omega
  have hzero2 : Until now (nextRun now h) = 0 ↔
      (now.Hour = h ∧ now.Minute = 0 ∧ now.Second = 0 ∧ now.Nanosecond = 0) := by
    rw [← hzero]
    exact (Sub_eq_zero (nextRun now h) now)
  have hnloc : (nextRun now h).loc = now.loc := by rw [nextRun_eq now h off hloc]
  refine ⟨hnloc, ?_, ?_, ?_, ?_, hle, hlt, hzero, ?_, ?_, ?_, ?_, hsub, hzero2⟩
  · rw [nextRun_eq now h off hloc]
    simp only [Time.Hour, Time.abs, Time.sec, secondsPerDay, hloc, FixedZone]
    split_ifs <;> omega
  · rw [nextRun_eq now h off hloc]
    simp only [Time.Minute, Time.abs, Time.sec, hloc, FixedZone]
    split_ifs <;> omega
  · rw [nextRun_eq now h off hloc]
    simp only [Time.Second, Time.abs, Time.sec, hloc, FixedZone]
    split_ifs <;> omega
  · rw [nextRun_eq now h off hloc]
    simp only [Time.Nanosecond]
    split_ifs <;> omega
  · intro hne
    have hne2 : (nextRun now h).unixNano ≠ now.unixNano := fun e => hne (hzero.1 e)
    refine ⟨by omega, ?_⟩
    intro t htloc hnt hH hM hS hN
    rw [nextRun_eq now h off hloc]
    simp only [Time.Hour, Time.Minute, Time.Second, Time.Nanosecond, Time.abs, Time.sec,
      secondsPerDay, htloc, hloc, FixedZone] at hH hM hS hN ⊢
    split_ifs <;> omega
  · intro env clock filepath
    simp only [loopBody, List.singleton_append]
  · intro clock
    constructor
    · intro hz
      exact ((Sub_eq_zero (nextRun now h) clock).1 hz).symm
    · intro hz
      exact (Sub_eq_zero (nextRun now h) clock).2 hz.symm
  · intro clock hc
    constructor
    · by_cases hcn : clock.unixNano ≤ (nextRun now h).unixNano
      · have e : Until clock (nextRun now h) = (nextRun now h).unixNano - clock.unixNano :=
          Sub_eq _ _ (by omega) (by omega)
        rw [e]
        exact (by omega : (nextRun now h).unixNano - clock.unixNano
          ≤ (nextRun now h).unixNano - now.unixNano)
      · have e : (Until clock (nextRun now h) : Int) ≤ 0 := Sub_nonpos _ _ (by omega)
        exact le_trans e (by omega : (0 : Int) ≤ (nextRun now h).unixNano - now.unixNano)
    · intro hcn
      exact Sub_eq _ _ (by omega) (by omega)

/-- C10 amended, at 2024-02-29T22:15:30.000000123+01:00 and hour 3: the next
run is 2024-03-01T03:00:00+01:00; read again at `now` the wait is 4 h 44 min
29.999999877 s. -/
theorem C10_next_run_amended_witness :
    nextRun lateEvening 3 = threeAM ∧
      Until lateEvening (nextRun lateEvening 3) = 17069999999877 ∧
      (nextRun lateEvening 3).Hour = 3 :=
  ⟨rfl, by decide,
    (C10_next_run_amended 3 lateEvening 3600 rfl (by decide) (by decide)).2.1⟩

/-- C3, as stated, fails: at 2024-03-01T03:00:00.000000000+01:00 with the
configured hour 3 the loop computes the current instant itself, the wait is
zero and not 24 hours. -/
theorem C3_boundary_counterexample :
    threeAM.Hour = 3 ∧ threeAM.Minute = 0 ∧ threeAM.Second = 0 ∧ threeAM.Nanosecond = 0 ∧
      nextRun threeAM 3 = threeAM ∧
      Until threeAM (nextRun threeAM 3) = 0 ∧
      (nextRun threeAM 3).unixNano ≠ threeAM.unixNano + 24 * Hour :=
  ⟨by decide, by decide, by decide, by decide, rfl, by decide, by decide⟩

/-- C3, amended: for an hour `h` in 0..23, when `now` is exactly the instant
that `time.Date` gives for `h:00:00.0` of the local day of `now`, the loop
computes `now` itself as the next run and not an instant 24 hours later: the
wait is zero when the clock is read again at `now` and is not positive for any
later reading, so the pass sleeps for no time and runs the task at once. In a
location with a fixed offset `now` is that instant whenever its local time is
exactly `h:00:00.0`. -/
theorem C3_boundary_amended (h : Int) (now : Time) (_h0 : 0 ≤ h) (_h23 : h ≤ 23) :
    (∀ off : Int, now.loc = FixedZone off →
      now.Hour = h → now.Minute = 0 → now.Second = 0 → now.Nanosecond = 0 →
      (Date now.Year now.Month now.Day h 0 0 0 now.Location).unixNano = now.unixNano) ∧
    ((Date now.Year now.Month now.Day h 0 0 0 now.Location).unixNano = now.unixNano →
      nextRun now h = now ∧
      Until now (nextRun now h) = 0 ∧
      (∀ clock : Time, now.unixNano ≤ clock.unixNano → Until clock (nextRun now h) ≤ 0) ∧
      ∀ (env : Env) (clock : Time) (filepath : String),
        loopBody env now clock h filepath
          = Event.sleep (Until clock now) :: executeTask env filepath) := by
  constructor
  · intro off hloc hH hM hS hN
    rw [Date_today_fixed now h off hloc, abs_fixed now off hloc]
    simp only [Time.Hour, Time.Minute, Time.Second, Time.Nanosecond, Time.abs, Time.sec,
      secondsPerDay, hloc, FixedZone] at hH hM hS hN
    show ((now.unixNano / 1000000000 + off) / 86400 * 86400 + h * 3600 - off) * 1000000000
      = now.unixNano
    omega
  · intro hnow
    have hnext : nextRun now h = now := by
      have hafter : now.After (Date now.Year now.Month now.Day h 0 0 0 now.Location)
          = false := by
        simp only [Time.After, hnow, gt_iff_lt, lt_self_iff_false, decide_False]
      simp only [nextRun, hafter]
      exact Time_ext _ _ hnow rfl
    have hwait : Until now now = 0 := (Sub_eq_zero now now).2 rfl
    refine ⟨hnext, by rw [hnext]; exact hwait, ?_, ?_⟩
    · intro clock hc
      rw [hnext]
      exact Sub_nonpos now clock hc
    · intro env clock filepath
      simp only [loopBody, hnext, List.singleton_append]

/-- C3 amended, at 2024-03-01T03:00:00.000000000+01:00 and hour 3. -/
theorem C3_boundary_amended_witness :
    nextRun threeAM 3 = threeAM ∧ Until threeAM (nextRun threeAM 3) = 0 :=
  have h := C3_boundary_amended 3 threeAM (by decide) (by decide)
  have hn := h.2 (h.1 3600 rfl (by decide) (by decide) (by decide) (by decide))
  ⟨hn.1, hn.2.1⟩

/-! ## The pipeline -/

theorem fetchGcoreIPs_calls (env : Env) (url : String) :
    (fetchGcoreIPs env url).2 = [Event.httpGet url] ∨
      (fetchGcoreIPs env url).2 = [Event.httpGet url, Event.bodyClose url] := by
  unfold fetchGcoreIPs
  split
  · exact Or.inl rfl
  · split
    · exact Or.inr rfl
    · split <;> exact Or.inr rfl

theorem fetchIPs_calls (env : Env) (url : String) :
    (fetchIPs env url).2 = [Event.httpGet url] ∨
      (fetchIPs env url).2 = [Event.httpGet url, Event.bodyClose url] := by
  unfold fetchIPs
  split
  · exact Or.inl rfl
  · split <;> exact Or.inr rfl

/-- A fetch of one URL makes no GET of a different URL, writes no file and runs
no command. -/
theorem fetch_calls_any (t : List Event) (url : String)
    (h : t = [Event.httpGet url] ∨ t = [Event.httpGet url, Event.bodyClose url]) :
    t.any Event.isWrite = false ∧ t.any Event.isExec = false ∧
      ∀ other : String, (url == other) = false → t.any (Event.isGet other) = false := by
  rcases h with h | h <;> subst h <;>
    simp [Event.isWrite, Event.isExec, Event.isGet]

/-- Without `-help`, one more pass of the loop adds a sleep until the next
scheduled instant and a run of the task. -/
theorem main_succ (flags : Flags) (envs : Nat → Env) (clock : Nat → Time × Time) (n : Nat)
    (hh : flags.help = false) :
    main flags envs clock (n + 1)
      = main flags envs clock n
        ++ Event.sleep (Until (clock n).2 (nextRun (clock n).1 flags.hour))
          :: executeTask (envs (n + 1)) (flags.location ++ "/" ++ flags.filename) := by
  simp only [main, hh, schedulerLoop, loopBody, List.singleton_append, List.append_assoc,
    Bool.false_eq_true, if_false]

/-- Without `-help`, what `main` has done after `n` passes ends with the run of
the task in the world `envs n`. -/
theorem main_ends_with_run (flags : Flags) (envs : Nat → Env) (clock : Nat → Time × Time)
    (n : Nat) (hh : flags.help = false) :
    ∃ before, main flags envs clock n
      = before ++ executeTask (envs n) (flags.location ++ "/" ++ flags.filename) := by
  cases n with
  | zero => exact ⟨[], by simp [main, hh, schedulerLoop]⟩
  | succ k =>
    exact ⟨main flags envs clock k
      ++ [Event.sleep (Until (clock k).2 (nextRun (clock k).1 flags.hour))], by
        rw [main_succ flags envs clock k hh]; simp⟩

/-- C4: when the three fetches succeed and the write fails, `writeConfig`
returns the error with line count 0, `executeTask` makes the three fetches and
the write, prints the error and returns: no command is run. `main` then goes
on: its next pass sleeps until the next scheduled instant and runs the task
again. -/
theorem C4_write_failure (env : Env) (filepath : String) (a b c : List GoString)
    (err : Error)
    (hA : (fetchGcoreIPs env gcoreURL).1 = .ok a)
    (hB : (fetchIPs env cloudflareV4URL).1 = .ok b)
    (hC : (fetchIPs env cloudflareV6URL).1 = .ok c)
    (hw : env.writeFile filepath (configContent (a ++ b ++ c)) 0o644 = some err) :
    (writeConfig env (a ++ b ++ c) filepath).1 = (0, some err) ∧
      executeTask env filepath
        = (fetchGcoreIPs env gcoreURL).2 ++ (fetchIPs env cloudflareV4URL).2
          ++ (fetchIPs env cloudflareV6URL).2
          ++ [Event.writeFile filepath (configContent (a ++ b ++ c)) 0o644,
              Event.print ("Error writing config: " ++ err ++ "\n")] ∧
      (executeTask env filepath).any Event.isExec = false ∧
      ∀ (flags : Flags) (envs : Nat → Env) (clock : Nat → Time × Time) (n : Nat),
        flags.help = false → envs n = env →
        filepath = flags.location ++ "/" ++ flags.filename →
        (∃ before, main flags envs clock n = before ++ executeTask env filepath) ∧
        main flags envs clock (n + 1)
          = main flags envs clock n
            ++ Event.sleep (Until (clock n).2 (nextRun (clock n).1 flags.hour))
              :: executeTask (envs (n + 1)) filepath := by
  have hwc : (writeConfig env (a ++ b ++ c) filepath).1 = (0, some err) := by
    simp only [writeConfig, hw]
  have hrun : executeTask env filepath
      = (fetchGcoreIPs env gcoreURL).2 ++ (fetchIPs env cloudflareV4URL).2
        ++ (fetchIPs env cloudflareV6URL).2
        ++ [Event.writeFile filepath (configContent (a ++ b ++ c)) 0o644,
            Event.print ("Error writing config: " ++ err ++ "\n")] := by
    unfold executeTask
    rcases hA2 : fetchGcoreIPs env gcoreURL with ⟨ra, t1⟩
    rcases hB2 : fetchIPs env cloudflareV4URL with ⟨rb, t2⟩
    rcases hC2 : fetchIPs env cloudflareV6URL with ⟨rc, t3⟩
    rw [hA2] at hA; rw [hB2] at hB; rw [hC2] at hC
    simp only at hA hB hC
    subst hA hB hC
    simp only [writeConfig, hw]
    simp only [List.append_assoc, List.singleton_append]
  refine ⟨hwc, hrun, ?_, ?_⟩
  · obtain ⟨_, h1, _⟩ := fetch_calls_any _ _ (fetchGcoreIPs_calls env gcoreURL)
    obtain ⟨_, h2, _⟩ := fetch_calls_any _ _ (fetchIPs_calls env cloudflareV4URL)
    obtain ⟨_, h3, _⟩ := fetch_calls_any _ _ (fetchIPs_calls env cloudflareV6URL)
    rw [hrun]
    simp only [List.any_append, h1, h2, h3, Bool.or_false, Bool.false_or]
    rfl
  · intro flags envs clock n hh henv hpath
    subst henv hpath
    exact ⟨main_ends_with_run flags envs clock n hh, main_succ flags envs clock n hh⟩

/-- C4 in the world `writeFailEnv`: the run stops after the failed write. -/
theorem C4_write_failure_witness :
    executeTask writeFailEnv "/etc/nginx/conf.d/allow.conf"
      = [Event.httpGet gcoreURL, Event.bodyClose gcoreURL,
          Event.httpGet cloudflareV4URL, Event.bodyClose cloudflareV4URL,
          Event.httpGet cloudflareV6URL, Event.bodyClose cloudflareV6URL,
          Event.writeFile "/etc/nginx/conf.d/allow.conf"
            (configContent ([lit "1.1.1.1", lit "::1"] ++ [lit "2.2.2.2", lit "3.3.3.3", []]
              ++ [lit "::2", []])) 0o644,
          Event.print ("Error writing config: " ++ "permission denied" ++ "\n")] :=
  (C4_write_failure writeFailEnv "/etc/nginx/conf.d/allow.conf" [lit "1.1.1.1", lit "::1"]
    [lit "2.2.2.2", lit "3.3.3.3", []] [lit "::2", []] "permission denied"
    rfl rfl rfl rfl).2.1

/-- C5: when one of the three fetches fails, `executeTask` prints the error
and returns at that step: it makes no later GET, writes no file and runs no
command. `main` then goes on: its next pass sleeps until the next scheduled
instant and runs the task again. -/
theorem C5_fetch_failure (env : Env) (filepath : String) (e : Error) :
    ((fetchGcoreIPs env gcoreURL).1 = .error e →
      executeTask env filepath
        = (fetchGcoreIPs env gcoreURL).2
          ++ [Event.print ("Error fetching Gcore IPs: " ++ e ++ "\n")] ∧
      (executeTask env filepath).any (Event.isGet cloudflareV4URL) = false ∧
      (executeTask env filepath).any (Event.isGet cloudflareV6URL) = false ∧
      (executeTask env filepath).any Event.isWrite = false ∧
      (executeTask env filepath).any Event.isExec = false) ∧
    (∀ a, (fetchGcoreIPs env gcoreURL).1 = .ok a →
      (fetchIPs env cloudflareV4URL).1 = .error e →
      executeTask env filepath
        = (fetchGcoreIPs env gcoreURL).2 ++ (fetchIPs env cloudflareV4URL).2
          ++ [Event.print ("Error fetching Cloudflare IPv4 IPs: " ++ e ++ "\n")] ∧
      (executeTask env filepath).any (Event.isGet cloudflareV6URL) = false ∧
      (executeTask env filepath).any Event.isWrite = false ∧
      (executeTask env filepath).any Event.isExec = false) ∧
    (∀ a b, (fetchGcoreIPs env gcoreURL).1 = .ok a →
      (fetchIPs env cloudflareV4URL).1 = .ok b →
      (fetchIPs env cloudflareV6URL).1 = .error e →
      executeTask env filepath
        = (fetchGcoreIPs env gcoreURL).2 ++ (fetchIPs env cloudflareV4URL).2
          ++ (fetchIPs env cloudflareV6URL).2
          ++ [Event.print ("Error fetching Cloudflare IPv6 IPs: " ++ e ++ "\n")] ∧
      (executeTask env filepath).any Event.isWrite = false ∧
      (executeTask env filepath).any Event.isExec = false) ∧
    ∀ (flags : Flags) (envs : Nat → Env) (clock : Nat → Time × Time) (n : Nat),
      flags.help = false → envs n = env →
      filepath = flags.location ++ "/" ++ flags.filename →
      (∃ before, main flags envs clock n = before ++ executeTask env filepath) ∧
      main flags envs clock (n + 1)
        = main flags envs clock n
          ++ Event.sleep (Until (clock n).2 (nextRun (clock n).1 flags.hour))
            :: executeTask (envs (n + 1)) filepath := by
  obtain ⟨w1, x1, g1⟩ := fetch_calls_any _ _ (fetchGcoreIPs_calls env gcoreURL)
  obtain ⟨w2, x2, g2⟩ := fetch_calls_any _ _ (fetchIPs_calls env cloudflareV4URL)
  obtain ⟨w3, x3, _⟩ := fetch_calls_any _ _ (fetchIPs_calls env cloudflareV6URL)
  have g14 := g1 cloudflareV4URL (by decide)
  have g16 := g1 cloudflareV6URL (by decide)
  have g26 := g2 cloudflareV6URL (by decide)
  refine ⟨?_, ?_, ?_, ?_⟩
  · intro hA
    have hrun : executeTask env filepath
        = (fetchGcoreIPs env gcoreURL).2
          ++ [Event.print ("Error fetching Gcore IPs: " ++ e ++ "\n")] := by
      unfold executeTask
      rcases hA2 : fetchGcoreIPs env gcoreURL with ⟨ra, t1⟩
      rw [hA2] at hA
      simp only at hA
      subst hA
      rfl
    refine ⟨hrun, ?_, ?_, ?_, ?_⟩ <;> rw [hrun] <;>
      simp only [List.any_append, g14, g16, w1, x1, Bool.false_or] <;> rfl
  · intro a hA hB
    have hrun : executeTask env filepath
        = (fetchGcoreIPs env gcoreURL).2 ++ (fetchIPs env cloudflareV4URL).2
          ++ [Event.print ("Error fetching Cloudflare IPv4 IPs: " ++ e ++ "\n")] := by
      unfold executeTask
      rcases hA2 : fetchGcoreIPs env gcoreURL with ⟨ra, t1⟩
      rcases hB2 : fetchIPs env cloudflareV4URL with ⟨rb, t2⟩
      rw [hA2] at hA; rw [hB2] at hB
      simp only at hA hB
      subst hA hB
      rfl
    refine ⟨hrun, ?_, ?_, ?_⟩ <;> rw [hrun] <;>
      simp only [List.any_append, g16, g26, w1, w2, x1, x2, Bool.false_or] <;> rfl
  · intro a b hA hB hC
    have hrun : executeTask env filepath
        = (fetchGcoreIPs env gcoreURL).2 ++ (fetchIPs env cloudflareV4URL).2
          ++ (fetchIPs env cloudflareV6URL).2
          ++ [Event.print ("Error fetching Cloudflare IPv6 IPs: " ++ e ++ "\n")] := by
      unfold executeTask
      rcases hA2 : fetchGcoreIPs env gcoreURL with ⟨ra, t1⟩
      rcases hB2 : fetchIPs env cloudflareV4URL with ⟨rb, t2⟩
      rcases hC2 : fetchIPs env cloudflareV6URL with ⟨rc, t3⟩
      rw [hA2] at hA; rw [hB2] at hB; rw [hC2] at hC
      simp only at hA hB hC
      subst hA hB hC
      rfl
    refine ⟨hrun, ?_, ?_⟩ <;> rw [hrun] <;>
      simp only [List.any_append, w1, w2, w3, x1, x2, x3, Bool.false_or] <;> rfl
  · intro flags envs clock n hh henv hpath
    subst henv hpath
    exact ⟨main_ends_with_run flags envs clock n hh, main_succ flags envs clock n hh⟩

/-- C5 in the world `v4DownEnv`: provider A is fetched, the GET of provider
B's IPv4 list fails, and the run ends there. -/
theorem C5_fetch_failure_witness :
    executeTask v4DownEnv "/etc/nginx/conf.d/allow.conf"
      = [Event.httpGet gcoreURL, Event.bodyClose gcoreURL, Event.httpGet cloudflareV4URL,
          Event.print ("Error fetching Cloudflare IPv4 IPs: " ++ "connection refused" ++ "\n")] :=
  ((C5_fetch_failure v4DownEnv "/etc/nginx/conf.d/allow.conf" "connection refused").2.1
    [lit "1.1.1.1", lit "::1"] rfl rfl).1

end NginxWhitelist
